import Mathlib

/-!
Shallow embedding of the orchestration core of the repository:
the task-graph builder of the coordinator agent, the issue lifecycle
state machine, and the agent pipeline, together with proofs of the
behavioural properties stated in the specification.
-/

namespace Core

/-! ### Task graph builder (coordinator agent) -/

/-- A task of one decomposition, as in the coordinator agent source. -/
structure Task where
  id : String
  title : String
  dependencies : List String
  estimatedEffort : String
  agent : String
deriving DecidableEq

/-- The dependency graph value returned by buildDAG. -/
structure DAG where
  tasks : List Task
  levels : List (List String)
  hasCycles : Bool
deriving DecidableEq

/-- Traversal state of the DFS in buildDAG: the level buckets, the set of
completed identifiers, and the cycle flag. -/
structure VisitState where
  levels : List (List String)
  visited : List String
  flag : Bool
deriving DecidableEq

/-- Pad the bucket list up to index n with empty buckets and append x to the
bucket at index n, as the while-push loop of the source does. -/
def pushAt : List (List String) → Nat → String → List (List String)
  | [], 0, x => [[x]]
  | [], n+1, x => [] :: pushAt [] n x
  | b :: bs, 0, x => (b ++ [x]) :: bs
  | b :: bs, n+1, x => b :: pushAt bs n x

/-- Lookup of a task by identifier: first match in the list, as
tasks.find does in the source. -/
def findTask (tasks : List Task) (taskId : String) : Option Task :=
  tasks.find? (fun t => t.id == taskId)

/-- All identifiers that can ever be passed to the visit procedure:
the task identifiers and every declared dependency identifier. -/
def idUniverse (tasks : List Task) : List String :=
  tasks.map Task.id ++ (tasks.map Task.dependencies).flatten

/-- The declared dependencies of an identifier: those of the first task
carrying it, and none when no task carries it. -/
def depsOf (tasks : List Task) (a : String) : List String :=
  match findTask tasks a with
  | some t => t.dependencies
  | none => []

/-- One dependency edge of the task list: b is a declared dependency of the
task whose identifier is a. -/
def depEdge (tasks : List Task) (a b : String) : Prop :=
  b ∈ depsOf tasks a

instance (tasks : List Task) (a b : String) : Decidable (depEdge tasks a b) := by
  unfold depEdge; infer_instance

/-- The task list contains a dependency cycle: some identifier reaches
itself through declared dependency edges. -/
def Cyclic (tasks : List Task) : Prop :=
  ∃ a, Relation.TransGen (depEdge tasks) a a

/-- A set of identifiers closed under declared dependency edges. -/
def Closed (tasks : List Task) (V : List String) : Prop :=
  ∀ a ∈ V, ∀ b, depEdge tasks a b → b ∈ V

/-- No identifier of the set lies on a dependency cycle. -/
def NoCycOn (tasks : List Task) (V : List String) : Prop :=
  ∀ a ∈ V, ¬ Relation.TransGen (depEdge tasks) a a

/-- The in-progress stack is a dependency chain: every entry is a declared
dependency of the entry below it. -/
def ChainBack (tasks : List Task) (inProg : List String) : Prop :=
  List.Chain' (fun a b => depEdge tasks b a) inProg

/-- The result of completing one visit: mark the identifier done and place
it in the bucket of its level. -/
def markSt (st1 : VisitState) (level : Nat) (taskId : String) : VisitState :=
  { st1 with visited := taskId :: st1.visited,
             levels := pushAt st1.levels level taskId }

/-- The DFS of buildDAG, threading the traversal state through a list of
identifiers visited at the same level. The in-progress set is a parameter
because the source restores it on return from each recursive visit. -/
def visitMany (tasks : List Task) (inProg : List String) (ids : List String)
    (level : Nat) (st : VisitState) : VisitState :=
  match ids with
  | [] => st
  | taskId :: rest =>
    let st2 :=
      if _h1 : taskId ∈ inProg then { st with flag := true }
      else if _h2 : taskId ∈ st.visited then st
      else
        markSt
          (match _h3 : findTask tasks taskId with
            | some t => visitMany tasks (taskId :: inProg) t.dependencies (level+1) st
            | none => st) level taskId
    visitMany tasks inProg rest level st2
termination_by (((idUniverse tasks).toFinset \ inProg.toFinset).card, ids.length)
decreasing_by
  · apply Prod.Lex.left
    have _h4 : tasks.find? (fun u => u.id == taskId) = some t := _h3
    have ht1 : t ∈ tasks := List.mem_of_find?_eq_some _h4
    have ht2 : t.id = taskId := by simpa using List.find?_some _h4
    have hid : taskId ∈ idUniverse tasks := by
      have : taskId ∈ tasks.map Task.id := by
        exact List.mem_map.mpr ⟨t, ht1, ht2⟩
      exact List.mem_append.mpr (Or.inl this)
    have hsub : (idUniverse tasks).toFinset \ (taskId :: inProg).toFinset ⊆
        (idUniverse tasks).toFinset \ inProg.toFinset := by
      intro x hx
      simp only [Finset.mem_sdiff, List.toFinset_cons, Finset.mem_insert] at hx ⊢
      exact ⟨hx.1, fun hmem => hx.2 (Or.inr hmem)⟩
    have hmem : taskId ∈ (idUniverse tasks).toFinset \ inProg.toFinset := by
      simp only [Finset.mem_sdiff, List.mem_toFinset]
      exact ⟨hid, _h1⟩
    have hnot : taskId ∉ (idUniverse tasks).toFinset \ (taskId :: inProg).toFinset := by
      simp
    exact Finset.card_lt_card ⟨hsub, fun hall => hnot (hall hmem)⟩
  · apply Prod.Lex.right
    simp

/-- The buildDAG operation of the coordinator agent: visit every task from
level 0, then reverse the bucket list and report the cycle flag. -/
def buildDAG (tasks : List Task) : DAG :=
  let st := visitMany tasks [] (tasks.map Task.id) 0 ⟨[], [], false⟩
  { tasks := tasks, levels := st.levels.reverse, hasCycles := st.flag }

/-- One rendered line of the execution plan, as the source formats it. -/
def planLine (i : Nat) (level : List String) : String :=
  if level.length = 1 then
    "Level " ++ toString (i+1) ++ ": " ++ level.headD ""
  else
    "Level " ++ toString (i+1) ++ ": " ++ String.intercalate ", " level ++ " (parallel)"

/-- The createExecutionPlan operation: one line per level, in order. -/
def createExecutionPlan (dag : DAG) : List String :=
  (List.range dag.levels.length).map (fun i => planLine i (dag.levels.getD i []))

/-- The cycle check step of the coordinator execute method: a cyclic DAG
aborts with the source error message before the plan is computed. -/
def executePlanStep (tasks : List Task) : Except String (DAG × List String) :=
  let dag := buildDAG tasks
  if dag.hasCycles then Except.error "Circular dependency detected in task graph"
  else Except.ok (dag, createExecutionPlan dag)

/-- The level-ordering property claimed for buildDAG: every dependency that
names a task of the list sits in a strictly earlier level bucket than its
dependent. -/
def LevelOrderProp (tasks : List Task) (dag : DAG) : Prop :=
  ∀ t ∈ tasks, ∀ i : Nat, t.id ∈ dag.levels.getD i [] →
    ∀ d ∈ t.dependencies, (∃ u ∈ tasks, u.id = d) →
      ∃ j < i, d ∈ dag.levels.getD j []

/-- The three-task chain of end-to-end scenario 3, in the stated order. -/
def chainTasks : List Task :=
  [⟨"t1", "", [], "", ""⟩, ⟨"t2", "", ["t1"], "", ""⟩, ⟨"t3", "", ["t2"], "", ""⟩]

/-- A two-task acyclic list where the dependency appears first in the list. -/
def pairTasks : List Task :=
  [⟨"t1", "", [], "", ""⟩, ⟨"t2", "", ["t1"], "", ""⟩]

/-- One task with a dependency identifier that matches no task. -/
def dangTasks : List Task :=
  [⟨"a", "", ["ghost"], "", ""⟩]

/-- A single task with no dependencies. -/
def soloTasks : List Task :=
  [⟨"t1", "", [], "", ""⟩]

/-- Two tasks depending on each other. -/
def cycTasks : List Task :=
  [⟨"a", "", ["b"], "", ""⟩, ⟨"b", "", ["a"], "", ""⟩]

/-! ### Issue lifecycle state machine -/

/-- The issue states of the source. -/
inductive IssueState
  | new
  | pending
  | in_progress
  | review
  | done
  | closed
deriving DecidableEq, Fintype

/-- The issue priorities of the source. -/
inductive IssuePriority
  | low
  | medium
  | high
  | critical
deriving DecidableEq

/-- The issue record threaded through the state machine and the pipeline. -/
structure IssueData where
  id : String
  title : String
  body : String
  state : IssueState
  priority : Option IssuePriority
  labels : List String
  assignee : Option String
deriving DecidableEq

/-- One recorded state transition; the timestamp is the ambient clock value. -/
structure StateTransition where
  fromState : IssueState
  toState : IssueState
  timestamp : Nat
  reason : Option String
deriving DecidableEq

/-- The private state of one IssueFSM instance. -/
structure FSMState where
  issue : IssueData
  history : List StateTransition
deriving DecidableEq

/-- The string value of each state literal in the source. -/
def stateName : IssueState → String
  | .new => "new"
  | .pending => "pending"
  | .in_progress => "in_progress"
  | .review => "review"
  | .done => "done"
  | .closed => "closed"

/-- The string value of each priority literal in the source. -/
def priorityName : IssuePriority → String
  | .low => "low"
  | .medium => "medium"
  | .high => "high"
  | .critical => "critical"

/-- The allowed transition table of the source. -/
def validTransitions : IssueState → List IssueState
  | .new => [.pending, .closed]
  | .pending => [.in_progress, .closed]
  | .in_progress => [.review, .pending, .closed]
  | .review => [.done, .in_progress, .closed]
  | .done => [.closed, .in_progress]
  | .closed => [.pending]

/-- The canTransitionTo predicate over the same table. -/
def canTransitionTo (st : FSMState) (toState : IssueState) : Bool :=
  (validTransitions st.issue.state).contains toState

/-- Lowercasing, as toLowerCase does on the relevant ASCII content. -/
def lowerStr (s : String) : String := String.mk (List.map Char.toLower s.data)

/-- The lowercased concatenation of title and body used for classification. -/
def textOf (title body : String) : String := lowerStr (title ++ " " ++ body)

/-- Character-list test: the first argument occurs at the front of the second. -/
def seqStarts : List Char → List Char → Bool
  | [], _ => true
  | _ :: _, [] => false
  | a :: as, b :: bs => a == b && seqStarts as bs

/-- Character-list test: the needle occurs somewhere inside the haystack. -/
def containsSeq : List Char → List Char → Bool
  | [], needle => needle.isEmpty
  | c :: t, needle => seqStarts needle (c :: t) || containsSeq t needle

/-- The includes test of the source on strings. -/
def strIncludes (hay needle : String) : Bool := containsSeq hay.toList needle.toList

/-- The keyword tier for critical priority. -/
def criticalKeywords : List String :=
  ["critical", "urgent", "emergency", "production down", "security"]

/-- The keyword tier for high priority. -/
def highKeywords : List String :=
  ["high priority", "important", "blocker", "blocking", "asap"]

/-- The keyword tier for medium priority; present in the source table but
never searched. -/
def mediumKeywords : List String :=
  ["medium", "should", "need", "improvement"]

/-- The keyword tier for low priority. -/
def lowKeywords : List String :=
  ["low", "minor", "nice to have", "enhancement", "documentation"]

/-- Some keyword of the tier occurs in the text. -/
def anyKeyword (text : String) (kws : List String) : Bool :=
  kws.any (fun k => strIncludes text k)

/-- The priority computed by autoAssignPriority, following the loop and
guard structure of the source. -/
def autoPriorityVal (text : String) : IssuePriority :=
  let a0 : IssuePriority := .medium
  let a1 := if anyKeyword text criticalKeywords then .critical else a0
  let a2 := if a1 = .medium then (if anyKeyword text highKeywords then .high else a1) else a1
  let a3 := if a2 = .medium then (if anyKeyword text lowKeywords then .low else a2) else a2
  a3

/-- The priority assignment as the specification words it: evaluate the
tiers critical, high, low in order, stopping at the first hit, with medium
as the default. Stated separately from the source-shaped definition so the
two can be compared. -/
def autoPrioritySpecForm (text : String) : IssuePriority :=
  if anyKeyword text criticalKeywords then .critical
  else if anyKeyword text highKeywords then .high
  else if anyKeyword text lowKeywords then .low
  else .medium

/-- The state label string for a state. -/
def stateLabel (s : IssueState) : String := "state:" ++ stateName s

/-- The priority label string for a priority. -/
def priorityLabel (p : IssuePriority) : String := "priority:" ++ priorityName p

/-- The labels computed by addAutoLabels before merging, in source order. -/
def newLabelsFor (issue : IssueData) : List String :=
  let text := textOf issue.title issue.body
  (match issue.priority with
    | some p => [priorityLabel p]
    | none => [])
  ++ (if strIncludes text "bug" || strIncludes text "error" || strIncludes text "fix" then
        ["bug"] else [])
  ++ (if strIncludes text "feature" || strIncludes text "enhancement" then
        ["enhancement"] else [])
  ++ (if strIncludes text "test" || strIncludes text "testing" then
        ["testing"] else [])
  ++ (if strIncludes text "documentation" || strIncludes text "docs" then
        ["documentation"] else [])
  ++ (if strIncludes text "state machine" || strIncludes text "fsm" then
        ["state-machine"] else [])
  ++ (if strIncludes text "agent" || strIncludes text "pipeline" then
        ["agent-system"] else [])
  ++ [stateLabel issue.state]

/-- One step of the set-union merge of the source: keep the accumulator
when the element is present, append it otherwise. -/
def insertUnique (acc : List String) (x : String) : List String :=
  if x ∈ acc then acc else acc ++ [x]

/-- The merge the source performs with a Set spread: deduplicate keeping
the first occurrence of each label. -/
def dedupFirst (l : List String) : List String := l.foldl insertUnique []

/-- The transitionToPending step of initialize. -/
def transitionToPendingRun (now : Nat) (st : FSMState) : FSMState :=
  { issue := { st.issue with state := .pending },
    history := st.history ++
      [⟨st.issue.state, .pending, now, some "Auto-transition from new issue"⟩] }

/-- The autoAssignPriority step of initialize. -/
def autoAssignPriorityRun (st : FSMState) : FSMState :=
  { st with issue := { st.issue with
      priority := some (autoPriorityVal (textOf st.issue.title st.issue.body)) } }

/-- The addAutoLabels step of initialize. -/
def addAutoLabelsRun (st : FSMState) : FSMState :=
  { st with issue := { st.issue with
      labels := dedupFirst (st.issue.labels ++ newLabelsFor st.issue) } }

/-- The initialize operation: acts only on a record in state new. -/
def initializeRun (now : Nat) (st : FSMState) : FSMState :=
  if st.issue.state = .new then
    addAutoLabelsRun (autoAssignPriorityRun (transitionToPendingRun now st))
  else st

/-- Constructing an IssueFSM copies the record and starts an empty history. -/
def mkFSM (issue : IssueData) : FSMState := ⟨issue, []⟩

/-- The error message the transition method raises for a rejected pair. -/
def invalidTransitionMsg (f t : IssueState) : String :=
  "Invalid transition from " ++ stateName f ++ " to " ++ stateName t

/-- The manual transition operation: the returned pair is the object state
at exit and the raised error message, if any. -/
def transitionRun (toState : IssueState) (reason : Option String) (now : Nat)
    (st : FSMState) : FSMState × Option String :=
  if (validTransitions st.issue.state).contains toState then
    let withState := { st.issue with state := toState }
    let hist := st.history ++ [⟨st.issue.state, toState, now, reason⟩]
    let labels2 := (withState.labels.filter (fun l => !(l.startsWith "state:")))
      ++ [stateLabel toState]
    ({ issue := { withState with labels := labels2 }, history := hist }, none)
  else
    (st, some (invalidTransitionMsg st.issue.state toState))

/-! ### Agent pipeline -/

/-- A pipeline agent: a name and a fallible transformation of the record. -/
structure Agent where
  name : String
  process : IssueData → Except String IssueData

/-- The pipeline-scoped events emitted during processIssue, in the names
the pipeline republishes them under. -/
inductive PEvent
  | issueStateChanged (t : StateTransition)
  | issuePriorityAssigned (p : IssuePriority)
  | issueLabelsUpdated (ls : List String)
  | issueReady (i : IssueData)
  | agentStart (n : String) (issueId : String)
  | agentComplete (n : String) (issueId : String)
  | pipelineComplete (i : IssueData)
  | pipelineError (e : String)
deriving DecidableEq

/-- The forwarded state machine events of one initialize call. -/
def initializeEvents (now : Nat) (st : FSMState) : List PEvent :=
  if st.issue.state = .new then
    [PEvent.issueStateChanged
        ⟨st.issue.state, .pending, now, some "Auto-transition from new issue"⟩,
      PEvent.issuePriorityAssigned (autoPriorityVal (textOf st.issue.title st.issue.body)),
      PEvent.issueLabelsUpdated
        ((addAutoLabelsRun (autoAssignPriorityRun (transitionToPendingRun now st))).issue.labels),
      PEvent.issueReady
        ((addAutoLabelsRun (autoAssignPriorityRun (transitionToPendingRun now st))).issue)]
  else []

/-- The agent loop of processIssue: events and outcome of running the
agents in order from a given record. -/
def runAgents : List Agent → IssueData → List PEvent × Except String IssueData
  | [], i => ([], Except.ok i)
  | a :: rest, i =>
    match a.process i with
    | Except.ok i2 =>
      let r := runAgents rest i2
      (PEvent.agentStart a.name i.id :: PEvent.agentComplete a.name i2.id :: r.1, r.2)
    | Except.error e => ([PEvent.agentStart a.name i.id], Except.error e)

/-- The composition of the agents alone: each output feeds the next agent,
the first failure aborts. -/
def chainAgents : List Agent → IssueData → Except String IssueData
  | [], i => Except.ok i
  | a :: rest, i =>
    match a.process i with
    | Except.ok i2 => chainAgents rest i2
    | Except.error e => Except.error e

/-- The processIssue operation of the pipeline: initialize a fresh machine,
forward its events, run the agents in order, and close with the completion
or error event; the second component is the returned or raised outcome. -/
def processIssue (agents : List Agent) (now : Nat) (issue : IssueData) :
    List PEvent × Except String IssueData :=
  let fsm0 := mkFSM issue
  let evs := initializeEvents now fsm0
  let i0 := (initializeRun now fsm0).issue
  let r := runAgents agents i0
  match r.2 with
  | Except.ok i2 => (evs ++ r.1 ++ [PEvent.pipelineComplete i2], Except.ok i2)
  | Except.error e => (evs ++ r.1 ++ [PEvent.pipelineError e], Except.error e)

/-- The issue record of end-to-end scenario 1. -/
def scenarioIssue : IssueData :=
  ⟨"i1", "Critical production bug", "", IssueState.new, none, [], none⟩

theorem visit_nil (tasks : List Task) (inProg : List String) (level : Nat)
    (st : VisitState) : visitMany tasks inProg [] level st = st := by
  rw [visitMany]

theorem visit_cons_inProg (tasks : List Task) (inProg : List String) (taskId : String)
    (rest : List String) (level : Nat) (st : VisitState) (h1 : taskId ∈ inProg) :
    visitMany tasks inProg (taskId :: rest) level st =
      visitMany tasks inProg rest level { st with flag := true } := by
  rw [visitMany]; simp [h1]

theorem visit_cons_visited (tasks : List Task) (inProg : List String) (taskId : String)
    (rest : List String) (level : Nat) (st : VisitState)
    (h1 : taskId ∉ inProg) (h2 : taskId ∈ st.visited) :
    visitMany tasks inProg (taskId :: rest) level st =
      visitMany tasks inProg rest level st := by
  rw [visitMany]; simp [h1, h2]

theorem visit_cons_found (tasks : List Task) (inProg : List String) (taskId : String)
    (rest : List String) (level : Nat) (st : VisitState) (t : Task)
    (h1 : taskId ∉ inProg) (h2 : taskId ∉ st.visited) (h3 : findTask tasks taskId = some t) :
    visitMany tasks inProg (taskId :: rest) level st =
      visitMany tasks inProg rest level
        (markSt (visitMany tasks (taskId :: inProg) t.dependencies (level+1) st) level taskId) := by
  rw [visitMany]; simp only [dif_neg h1, dif_neg h2, markSt]
  split
  · rename_i t2 h4
    rw [h3] at h4
    cases h4
    rfl
  · rename_i h4
    rw [h3] at h4
    cases h4

theorem visit_cons_none (tasks : List Task) (inProg : List String) (taskId : String)
    (rest : List String) (level : Nat) (st : VisitState)
    (h1 : taskId ∉ inProg) (h2 : taskId ∉ st.visited) (h3 : findTask tasks taskId = none) :
    visitMany tasks inProg (taskId :: rest) level st =
      visitMany tasks inProg rest level (markSt st level taskId) := by
  rw [visitMany]; simp only [dif_neg h1, dif_neg h2, markSt]
  split
  · rename_i t2 h4
    rw [h3] at h4
    cases h4
  · rfl

theorem visit_mono (tasks : List Task) (inProg ids : List String) (level : Nat)
    (st : VisitState) :
    st.visited ⊆ (visitMany tasks inProg ids level st).visited ∧
      (st.flag = true → (visitMany tasks inProg ids level st).flag = true) := by
  induction inProg, ids, level, st using visitMany.induct tasks with
  | case1 inProg level st =>
    rw [visit_nil]
    exact ⟨fun _ h => h, fun h => h⟩
  | case2 inProg level st taskId rest st2 ih1 ih2 =>
    unfold_let st2 at ih2
    clear st2
    by_cases h1 : taskId ∈ inProg
    · rw [visit_cons_inProg tasks inProg taskId rest level st h1]
      simp only [dif_pos h1] at ih2
      exact ⟨ih2.1, fun _ => ih2.2 trivial⟩
    · by_cases h2 : taskId ∈ st.visited
      · rw [visit_cons_visited tasks inProg taskId rest level st h1 h2]
        simp only [dif_neg h1, dif_pos h2] at ih2
        exact ih2
      · cases h3 : findTask tasks taskId with
        | some t =>
          rw [visit_cons_found tasks inProg taskId rest level st t h1 h2 h3]
          have ihd := ih1 h1 t h3
          simp only [dif_neg h1, dif_neg h2] at ih2
          split at ih2
          · rename_i t2 h4
            rw [h3] at h4
            cases h4
            constructor
            · intro x hx
              exact ih2.1 (by simp [markSt]; exact Or.inr (ihd.1 hx))
            · intro hf
              exact ih2.2 (by simp [markSt]; exact ihd.2 hf)
          · rename_i h4
            rw [h3] at h4
            cases h4
        | none =>
          rw [visit_cons_none tasks inProg taskId rest level st h1 h2 h3]
          simp only [dif_neg h1, dif_neg h2] at ih2
          split at ih2
          · rename_i t2 h4
            rw [h3] at h4
            cases h4
          · constructor
            · intro x hx
              exact ih2.1 (by simp [markSt]; exact Or.inr hx)
            · intro hf
              exact ih2.2 (by simp [markSt]; exact hf)

theorem visit_fresh (tasks : List Task) (inProg ids : List String) (level : Nat)
    (st : VisitState) :
    ∀ x, x ∈ (visitMany tasks inProg ids level st).visited →
      x ∈ st.visited ∨ x ∉ inProg := by
  induction inProg, ids, level, st using visitMany.induct tasks with
  | case1 inProg level st =>
    rw [visit_nil]
    exact fun _ h => Or.inl h
  | case2 inProg level st taskId rest st2 ih1 ih2 =>
    unfold_let st2 at ih2
    clear st2
    intro x hx
    by_cases h1 : taskId ∈ inProg
    · rw [visit_cons_inProg tasks inProg taskId rest level st h1] at hx
      simp only [dif_pos h1] at ih2
      exact ih2 x hx
    · by_cases h2 : taskId ∈ st.visited
      · rw [visit_cons_visited tasks inProg taskId rest level st h1 h2] at hx
        simp only [dif_neg h1, dif_pos h2] at ih2
        exact ih2 x hx
      · cases h3 : findTask tasks taskId with
        | some t =>
          rw [visit_cons_found tasks inProg taskId rest level st t h1 h2 h3] at hx
          have ihd := ih1 h1 t h3
          simp only [dif_neg h1, dif_neg h2] at ih2
          split at ih2
          · rename_i t2 h4
            rw [h3] at h4
            cases h4
            rcases ih2 x hx with hin | hout
            · simp only [markSt, List.mem_cons] at hin
              rcases hin with heq | hin
              · subst heq
                exact Or.inr h1
              · rcases ihd x hin with h5 | h5
                · exact Or.inl h5
                · exact Or.inr (fun hm => h5 (List.mem_cons_of_mem _ hm))
            · exact Or.inr hout
          · rename_i h4
            rw [h3] at h4
            cases h4
        | none =>
          rw [visit_cons_none tasks inProg taskId rest level st h1 h2 h3] at hx
          simp only [dif_neg h1, dif_neg h2] at ih2
          split at ih2
          · rename_i t2 h4
            rw [h3] at h4
            cases h4
          · rcases ih2 x hx with hin | hout
            · simp only [markSt, List.mem_cons] at hin
              rcases hin with heq | hin
              · subst heq
                exact Or.inr h1
              · exact Or.inl hin
            · exact Or.inr hout

theorem visit_nodup (tasks : List Task) (inProg ids : List String) (level : Nat)
    (st : VisitState) :
    st.visited.Nodup → (visitMany tasks inProg ids level st).visited.Nodup := by
  induction inProg, ids, level, st using visitMany.induct tasks with
  | case1 inProg level st =>
    rw [visit_nil]
    exact fun hnd => hnd
  | case2 inProg level st taskId rest st2 ih1 ih2 =>
    unfold_let st2 at ih2
    clear st2
    intro hnd
    by_cases h1 : taskId ∈ inProg
    · rw [visit_cons_inProg tasks inProg taskId rest level st h1]
      simp only [dif_pos h1] at ih2
      exact ih2 hnd
    · by_cases h2 : taskId ∈ st.visited
      · rw [visit_cons_visited tasks inProg taskId rest level st h1 h2]
        simp only [dif_neg h1, dif_pos h2] at ih2
        exact ih2 hnd
      · cases h3 : findTask tasks taskId with
        | some t =>
          rw [visit_cons_found tasks inProg taskId rest level st t h1 h2 h3]
          have ihd := ih1 h1 t h3 hnd
          have hfr : taskId ∉ (visitMany tasks (taskId :: inProg) t.dependencies (level+1) st).visited := by
            intro hm
            rcases visit_fresh tasks (taskId :: inProg) t.dependencies (level+1) st taskId hm with
              h5 | h5
            · exact h2 h5
            · exact h5 (List.mem_cons_self _ _)
          simp only [dif_neg h1, dif_neg h2] at ih2
          split at ih2
          · rename_i t2 h4
            rw [h3] at h4
            cases h4
            apply ih2
            simp only [markSt]
            exact List.nodup_cons.mpr ⟨hfr, ihd⟩
          · rename_i h4
            rw [h3] at h4
            cases h4
        | none =>
          rw [visit_cons_none tasks inProg taskId rest level st h1 h2 h3]
          simp only [dif_neg h1, dif_neg h2] at ih2
          split at ih2
          · rename_i t2 h4
            rw [h3] at h4
            cases h4
          · apply ih2
            simp only [markSt]
            exact List.nodup_cons.mpr ⟨h2, hnd⟩


theorem pushAt_flatten_perm (L : List (List String)) (n : Nat) (x : String) :
    (pushAt L n x).flatten.Perm (x :: L.flatten) := by
  induction L, n, x using pushAt.induct with
  | case1 x => simp [pushAt]
  | case2 n x ih =>
    simpa using ih
  | case3 b bs x =>
    simp only [pushAt, List.flatten_cons, List.append_assoc, List.singleton_append]
    exact List.perm_middle
  | case4 b bs n x ih =>
    simp only [pushAt, List.flatten_cons]
    exact (ih.append_left b).trans List.perm_middle

theorem visit_perm (tasks : List Task) (inProg ids : List String) (level : Nat)
    (st : VisitState) :
    st.levels.flatten.Perm st.visited →
      (visitMany tasks inProg ids level st).levels.flatten.Perm
        (visitMany tasks inProg ids level st).visited := by
  induction inProg, ids, level, st using visitMany.induct tasks with
  | case1 inProg level st =>
    rw [visit_nil]
    exact fun h => h
  | case2 inProg level st taskId rest st2 ih1 ih2 =>
    unfold_let st2 at ih2
    clear st2
    intro hp
    by_cases h1 : taskId ∈ inProg
    · rw [visit_cons_inProg tasks inProg taskId rest level st h1]
      simp only [dif_pos h1] at ih2
      exact ih2 hp
    · by_cases h2 : taskId ∈ st.visited
      · rw [visit_cons_visited tasks inProg taskId rest level st h1 h2]
        simp only [dif_neg h1, dif_pos h2] at ih2
        exact ih2 hp
      · cases h3 : findTask tasks taskId with
        | some t =>
          rw [visit_cons_found tasks inProg taskId rest level st t h1 h2 h3]
          have ihd := ih1 h1 t h3 hp
          simp only [dif_neg h1, dif_neg h2] at ih2
          split at ih2
          · rename_i t2 h4
            rw [h3] at h4
            cases h4
            apply ih2
            simp only [markSt]
            exact (pushAt_flatten_perm _ _ _).trans (ihd.cons taskId)
          · rename_i h4
            rw [h3] at h4
            cases h4
        | none =>
          rw [visit_cons_none tasks inProg taskId rest level st h1 h2 h3]
          simp only [dif_neg h1, dif_neg h2] at ih2
          split at ih2
          · rename_i t2 h4
            rw [h3] at h4
            cases h4
          · apply ih2
            simp only [markSt]
            exact (pushAt_flatten_perm _ _ _).trans (hp.cons taskId)

theorem depsOf_found (tasks : List Task) (a : String) (t : Task)
    (h : findTask tasks a = some t) : depsOf tasks a = t.dependencies := by
  simp [depsOf, h]

theorem depsOf_missing (tasks : List Task) (a : String)
    (h : findTask tasks a = none) : depsOf tasks a = [] := by
  simp [depsOf, h]

theorem reach_closed (tasks : List Task) (V : List String) (hC : Closed tasks V)
    (a b : String) (ha : a ∈ V) (h : Relation.TransGen (depEdge tasks) a b) : b ∈ V := by
  induction h with
  | single h1 => exact hC a ha _ h1
  | tail _h1 h2 ih => exact hC _ ih _ h2

theorem visit_sound (tasks : List Task) (inProg ids : List String) (level : Nat)
    (st : VisitState) :
    (visitMany tasks inProg ids level st).flag = false →
    Closed tasks st.visited → NoCycOn tasks st.visited → (∀ x ∈ inProg, x ∉ st.visited) →
      Closed tasks (visitMany tasks inProg ids level st).visited ∧
      NoCycOn tasks (visitMany tasks inProg ids level st).visited ∧
      (∀ x ∈ inProg, x ∉ (visitMany tasks inProg ids level st).visited) ∧
      (∀ i ∈ ids, i ∈ (visitMany tasks inProg ids level st).visited) := by
  induction inProg, ids, level, st using visitMany.induct tasks with
  | case1 inProg level st =>
    rw [visit_nil]
    intro _ hC hN hP
    exact ⟨hC, hN, hP, by simp⟩
  | case2 inProg level st taskId rest st2 ih1 ih2 =>
    unfold_let st2 at ih2
    clear st2
    intro hflag hC hN hP
    by_cases h1 : taskId ∈ inProg
    · rw [visit_cons_inProg tasks inProg taskId rest level st h1] at hflag
      have := (visit_mono tasks inProg rest level { st with flag := true }).2 rfl
      rw [hflag] at this
      cases this
    · by_cases h2 : taskId ∈ st.visited
      · rw [visit_cons_visited tasks inProg taskId rest level st h1 h2] at hflag ⊢
        simp only [dif_neg h1, dif_pos h2] at ih2
        obtain ⟨c1, c2, c3, c4⟩ := ih2 hflag hC hN hP
        refine ⟨c1, c2, c3, ?_⟩
        intro i hi
        rcases List.mem_cons.mp hi with heq | hi
        · subst heq
          exact (visit_mono tasks inProg rest level st).1 h2
        · exact c4 i hi
      · cases h3 : findTask tasks taskId with
        | some t =>
          rw [visit_cons_found tasks inProg taskId rest level st t h1 h2 h3] at hflag ⊢
          simp only [dif_neg h1, dif_neg h2] at ih2
          split at ih2
          · rename_i t2 h4
            rw [h3] at h4
            cases h4
            -- the dependency visit result
            have hDflag :
                (visitMany tasks (taskId :: inProg) t.dependencies (level+1) st).flag = false := by
              by_contra hne
              have hd := eq_true_of_ne_false hne
              have := (visit_mono tasks inProg rest level
                (markSt (visitMany tasks (taskId :: inProg) t.dependencies (level+1) st)
                  level taskId)).2 (by simpa [markSt] using hd)
              rw [hflag] at this
              cases this
            have hPd : ∀ x ∈ taskId :: inProg, x ∉ st.visited := by
              intro x hx
              rcases List.mem_cons.mp hx with heq | hx
              · subst heq
                exact h2
              · exact hP x hx
            obtain ⟨dC, dN, dP, dIn⟩ := ih1 h1 t h3 hDflag hC hN hPd
            have hfreshT :
                taskId ∉ (visitMany tasks (taskId :: inProg) t.dependencies (level+1) st).visited :=
              dP taskId (List.mem_cons_self _ _)
            -- properties of the marked state
            have mC : Closed tasks
                (markSt (visitMany tasks (taskId :: inProg) t.dependencies (level+1) st)
                  level taskId).visited := by
              intro a ha b hab
              simp only [markSt, List.mem_cons] at ha ⊢
              rcases ha with heq | ha
              · subst heq
                right
                apply dIn
                rw [← depsOf_found tasks a t h3]
                exact hab
              · exact Or.inr (dC a ha b hab)
            have mN : NoCycOn tasks
                (markSt (visitMany tasks (taskId :: inProg) t.dependencies (level+1) st)
                  level taskId).visited := by
              intro a ha htg
              simp only [markSt, List.mem_cons] at ha
              rcases ha with heq | ha
              · subst heq
                rcases Relation.TransGen.head'_iff.mp htg with ⟨b, hab, hba⟩
                have hb : b ∈ (visitMany tasks (a :: inProg) t.dependencies (level+1) st).visited := by
                  apply dIn
                  rw [← depsOf_found tasks a t h3]
                  exact hab
                rcases Relation.reflTransGen_iff_eq_or_transGen.mp hba with heq2 | htr
                · subst heq2
                  exact hfreshT hb
                · exact hfreshT (reach_closed tasks _ dC b a hb htr)
              · exact dN a ha htg
            have mP : ∀ x ∈ inProg,
                x ∉ (markSt (visitMany tasks (taskId :: inProg) t.dependencies (level+1) st)
                  level taskId).visited := by
              intro x hx
              simp only [markSt, List.mem_cons]
              push_neg
              constructor
              · intro heq
                subst heq
                exact h1 hx
              · exact dP x (List.mem_cons_of_mem _ hx)
            obtain ⟨c1, c2, c3, c4⟩ := ih2 hflag mC mN mP
            refine ⟨c1, c2, c3, ?_⟩
            intro i hi
            rcases List.mem_cons.mp hi with heq | hi
            · subst heq
              apply (visit_mono tasks inProg rest level _).1
              simp [markSt]
            · exact c4 i hi
          · rename_i h4
            rw [h3] at h4
            cases h4
        | none =>
          rw [visit_cons_none tasks inProg taskId rest level st h1 h2 h3] at hflag ⊢
          simp only [dif_neg h1, dif_neg h2] at ih2
          split at ih2
          · rename_i t2 h4
            rw [h3] at h4
            cases h4
          · have mC : Closed tasks (markSt st level taskId).visited := by
              intro a ha b hab
              simp only [markSt, List.mem_cons] at ha ⊢
              rcases ha with heq | ha
              · subst heq
                rw [depEdge, depsOf_missing tasks a h3] at hab
                cases hab
              · exact Or.inr (hC a ha b hab)
            have mN : NoCycOn tasks (markSt st level taskId).visited := by
              intro a ha htg
              simp only [markSt, List.mem_cons] at ha
              rcases ha with heq | ha
              · subst heq
                rcases Relation.TransGen.head'_iff.mp htg with ⟨b, hab, _hba⟩
                rw [depEdge, depsOf_missing tasks a h3] at hab
                cases hab
              · exact hN a ha htg
            have mP : ∀ x ∈ inProg, x ∉ (markSt st level taskId).visited := by
              intro x hx
              simp only [markSt, List.mem_cons]
              push_neg
              constructor
              · intro heq
                subst heq
                exact h1 hx
              · exact hP x hx
            obtain ⟨c1, c2, c3, c4⟩ := ih2 hflag mC mN mP
            refine ⟨c1, c2, c3, ?_⟩
            intro i hi
            rcases List.mem_cons.mp hi with heq | hi
            · subst heq
              apply (visit_mono tasks inProg rest level _).1
              simp [markSt]
            · exact c4 i hi

theorem findTask_mem (tasks : List Task) (a : String) (t : Task)
    (h : findTask tasks a = some t) : t ∈ tasks ∧ t.id = a := by
  have h4 : tasks.find? (fun u => u.id == a) = some t := h
  refine ⟨List.mem_of_find?_eq_some h4, ?_⟩
  simpa using List.find?_some h4

theorem chain_reach (tasks : List Task) :
    ∀ (tl : List String) (hd : String), ChainBack tasks (hd :: tl) →
      ∀ x ∈ hd :: tl, Relation.ReflTransGen (depEdge tasks) x hd := by
  intro tl
  induction tl with
  | nil =>
    intro hd _ x hx
    rcases List.mem_cons.mp hx with heq | hx2
    · subst heq
      exact Relation.ReflTransGen.refl
    · cases hx2
  | cons b tl2 ih =>
    intro hd hch x hx
    simp only [ChainBack, List.chain'_cons] at hch
    rcases List.mem_cons.mp hx with heq | hx2
    · subst heq
      exact Relation.ReflTransGen.refl
    · exact (ih b hch.2 x hx2).tail hch.1

theorem visit_flag_cycle (tasks : List Task) (inProg ids : List String) (level : Nat)
    (st : VisitState) :
    ChainBack tasks inProg →
    (∀ i ∈ ids, ∀ hd tl, inProg = hd :: tl → depEdge tasks hd i) →
    (visitMany tasks inProg ids level st).flag = true →
    st.flag = true ∨ Cyclic tasks := by
  induction inProg, ids, level, st using visitMany.induct tasks with
  | case1 inProg level st =>
    rw [visit_nil]
    exact fun _ _ h => Or.inl h
  | case2 inProg level st taskId rest st2 ih1 ih2 =>
    unfold_let st2 at ih2
    clear st2
    intro hch hids hflag
    have hids2 : ∀ i ∈ rest, ∀ hd tl, inProg = hd :: tl → depEdge tasks hd i :=
      fun i hi => hids i (List.mem_cons_of_mem _ hi)
    by_cases h1 : taskId ∈ inProg
    · right
      cases inProg with
      | nil => cases h1
      | cons hd tl =>
        have hedge : depEdge tasks hd taskId :=
          hids taskId (List.mem_cons_self _ _) hd tl rfl
        have hreach : Relation.ReflTransGen (depEdge tasks) taskId hd :=
          chain_reach tasks tl hd hch taskId h1
        exact ⟨taskId, Relation.TransGen.tail' hreach hedge⟩
    · by_cases h2 : taskId ∈ st.visited
      · rw [visit_cons_visited tasks inProg taskId rest level st h1 h2] at hflag
        simp only [dif_neg h1, dif_pos h2] at ih2
        exact ih2 hch hids2 hflag
      · cases h3 : findTask tasks taskId with
        | some t =>
          rw [visit_cons_found tasks inProg taskId rest level st t h1 h2 h3] at hflag
          simp only [dif_neg h1, dif_neg h2] at ih2
          split at ih2
          · rename_i t2 h4
            rw [h3] at h4
            cases h4
            rcases ih2 hch hids2 hflag with hMf | hcyc
            · have hDf :
                  (visitMany tasks (taskId :: inProg) t.dependencies (level+1) st).flag = true := by
                simpa [markSt] using hMf
              have hchD : ChainBack tasks (taskId :: inProg) := by
                cases inProg with
                | nil => simp [ChainBack]
                | cons hd tl =>
                  have hedge : depEdge tasks hd taskId :=
                    hids taskId (List.mem_cons_self _ _) hd tl rfl
                  simp only [ChainBack, List.chain'_cons]
                  refine ⟨hedge, ?_⟩
                  simpa [ChainBack] using hch
              have hidsD : ∀ d ∈ t.dependencies,
                  ∀ hd tl, taskId :: inProg = hd :: tl → depEdge tasks hd d := by
                intro d hdd hd tl heq
                cases heq
                rw [depEdge, depsOf_found tasks taskId t h3]
                exact hdd
              exact ih1 h1 t h3 hchD hidsD hDf
            · exact Or.inr hcyc
          · rename_i h4
            rw [h3] at h4
            cases h4
        | none =>
          rw [visit_cons_none tasks inProg taskId rest level st h1 h2 h3] at hflag
          simp only [dif_neg h1, dif_neg h2] at ih2
          split at ih2
          · rename_i t2 h4
            rw [h3] at h4
            cases h4
          · rcases ih2 hch hids2 hflag with hMf | hcyc
            · left
              simpa [markSt] using hMf
            · exact Or.inr hcyc

theorem buildDAG_flag_imp_cyclic (tasks : List Task) :
    (buildDAG tasks).hasCycles = true → Cyclic tasks := by
  intro h
  have h0 : (visitMany tasks [] (tasks.map Task.id) 0 ⟨[], [], false⟩).flag = true := by
    simpa [buildDAG] using h
  rcases visit_flag_cycle tasks [] (tasks.map Task.id) 0 ⟨[], [], false⟩
      (by simp [ChainBack]) (fun i _ hd tl heq => nomatch heq) h0 with hf | hc
  · cases hf
  · exact hc

theorem buildDAG_cyclic_flag (tasks : List Task) :
    Cyclic tasks → (buildDAG tasks).hasCycles = true := by
  intro hcyc
  by_contra hne
  have hfl : (visitMany tasks [] (tasks.map Task.id) 0 ⟨[], [], false⟩).flag = false := by
    have hB2 : (buildDAG tasks).hasCycles = false := by
      cases hB : (buildDAG tasks).hasCycles
      · rfl
      · exact absurd hB hne
    simpa [buildDAG] using hB2
  obtain ⟨_fC, fN, _fP, fIn⟩ :=
    visit_sound tasks [] (tasks.map Task.id) 0 ⟨[], [], false⟩ hfl
      (by intro a ha; cases ha) (by intro a ha; cases ha) (by intro x hx; cases hx)
  obtain ⟨a, htg⟩ := hcyc
  rcases Relation.TransGen.head'_iff.mp htg with ⟨b, hab, _⟩
  have hsome : ∃ t, findTask tasks a = some t := by
    cases hft : findTask tasks a with
    | some t => exact ⟨t, rfl⟩
    | none =>
      rw [depEdge, depsOf_missing tasks a hft] at hab
      cases hab
  obtain ⟨t, hft⟩ := hsome
  obtain ⟨ht1, ht2⟩ := findTask_mem tasks a t hft
  have haV : a ∈ (visitMany tasks [] (tasks.map Task.id) 0 ⟨[], [], false⟩).visited :=
    fIn a (List.mem_map.mpr ⟨t, ht1, ht2⟩)
  exact fN a haV htg

theorem buildDAG_levels_count (tasks : List Task)
    (h : (buildDAG tasks).hasCycles = false) :
    ∀ t ∈ tasks, ((buildDAG tasks).levels.flatten).count t.id = 1 := by
  intro t ht
  have hfl : (visitMany tasks [] (tasks.map Task.id) 0 ⟨[], [], false⟩).flag = false := by
    simpa [buildDAG] using h
  obtain ⟨_fC, _fN, _fP, fIn⟩ :=
    visit_sound tasks [] (tasks.map Task.id) 0 ⟨[], [], false⟩ hfl
      (by intro a ha; cases ha) (by intro a ha; cases ha) (by intro x hx; cases hx)
  have hmem : t.id ∈ (visitMany tasks [] (tasks.map Task.id) 0 ⟨[], [], false⟩).visited :=
    fIn t.id (List.mem_map.mpr ⟨t, ht, rfl⟩)
  have hnd : (visitMany tasks [] (tasks.map Task.id) 0 ⟨[], [], false⟩).visited.Nodup :=
    visit_nodup tasks [] (tasks.map Task.id) 0 ⟨[], [], false⟩ List.nodup_nil
  have hperm : (visitMany tasks [] (tasks.map Task.id) 0 ⟨[], [], false⟩).levels.flatten.Perm
      (visitMany tasks [] (tasks.map Task.id) 0 ⟨[], [], false⟩).visited :=
    visit_perm tasks [] (tasks.map Task.id) 0 ⟨[], [], false⟩ (by simp)
  have hrev : ((buildDAG tasks).levels.flatten).Perm
      (visitMany tasks [] (tasks.map Task.id) 0 ⟨[], [], false⟩).levels.flatten := by
    simp only [buildDAG]
    exact (List.reverse_perm _).flatten
  rw [(hrev.trans hperm).count_eq]
  exact List.count_eq_one_of_mem hnd hmem

theorem depEdge_mem (tasks : List Task) (a b : String) (h : depEdge tasks a b) :
    ∃ t ∈ tasks, t.id = a ∧ b ∈ t.dependencies := by
  rw [depEdge] at h
  cases hft : findTask tasks a with
  | none =>
    rw [depsOf_missing tasks a hft] at h
    cases h
  | some t =>
    rw [depsOf_found tasks a t hft] at h
    obtain ⟨h1, h2⟩ := findTask_mem tasks a t hft
    exact ⟨t, h1, h2, h⟩

theorem rank_not_cyclic (tasks : List Task) (rank : String → Nat)
    (h : ∀ a b, depEdge tasks a b → rank b < rank a) : ¬ Cyclic tasks := by
  rintro ⟨a, htg⟩
  have hlt : ∀ x y, Relation.TransGen (depEdge tasks) x y → rank y < rank x := by
    intro x y h2
    induction h2 with
    | single h1 => exact h _ _ h1
    | tail _h1 h2 ih => exact lt_trans (h _ _ h2) ih
  exact lt_irrefl _ (hlt a a htg)

theorem no_deps_not_cyclic (tasks : List Task)
    (h : ∀ t ∈ tasks, t.dependencies = []) : ¬ Cyclic tasks := by
  rintro ⟨a, htg⟩
  rcases Relation.TransGen.head'_iff.mp htg with ⟨b, hab, _⟩
  obtain ⟨t, ht, _, hb⟩ := depEdge_mem tasks a b hab
  rw [h t ht] at hb
  cases hb

theorem visit_universe (tasks : List Task) (inProg ids : List String) (level : Nat)
    (st : VisitState) :
    (∀ i ∈ ids, i ∈ idUniverse tasks) →
      ∀ x ∈ (visitMany tasks inProg ids level st).visited,
        x ∈ st.visited ∨ x ∈ idUniverse tasks := by
  induction inProg, ids, level, st using visitMany.induct tasks with
  | case1 inProg level st =>
    rw [visit_nil]
    exact fun _ _ hx => Or.inl hx
  | case2 inProg level st taskId rest st2 ih1 ih2 =>
    unfold_let st2 at ih2
    clear st2
    intro hids x hx
    have hids2 : ∀ i ∈ rest, i ∈ idUniverse tasks :=
      fun i hi => hids i (List.mem_cons_of_mem _ hi)
    by_cases h1 : taskId ∈ inProg
    · rw [visit_cons_inProg tasks inProg taskId rest level st h1] at hx
      simp only [dif_pos h1] at ih2
      exact ih2 hids2 x hx
    · by_cases h2 : taskId ∈ st.visited
      · rw [visit_cons_visited tasks inProg taskId rest level st h1 h2] at hx
        simp only [dif_neg h1, dif_pos h2] at ih2
        exact ih2 hids2 x hx
      · cases h3 : findTask tasks taskId with
        | some t =>
          rw [visit_cons_found tasks inProg taskId rest level st t h1 h2 h3] at hx
          simp only [dif_neg h1, dif_neg h2] at ih2
          split at ih2
          · rename_i t2 h4
            rw [h3] at h4
            cases h4
            have hdeps : ∀ i ∈ t.dependencies, i ∈ idUniverse tasks := by
              intro d hd
              refine List.mem_append.mpr (Or.inr ?_)
              exact List.mem_flatten.mpr
                ⟨t.dependencies, List.mem_map.mpr ⟨t, (findTask_mem tasks taskId t h3).1, rfl⟩, hd⟩
            rcases ih2 hids2 x hx with hin | hout
            · simp only [markSt, List.mem_cons] at hin
              rcases hin with heq | hin
              · subst heq
                exact Or.inr (hids x (List.mem_cons_self _ _))
              · exact ih1 h1 t h3 hdeps x hin
            · exact Or.inr hout
          · rename_i h4
            rw [h3] at h4
            cases h4
        | none =>
          rw [visit_cons_none tasks inProg taskId rest level st h1 h2 h3] at hx
          simp only [dif_neg h1, dif_neg h2] at ih2
          split at ih2
          · rename_i t2 h4
            rw [h3] at h4
            cases h4
          · rcases ih2 hids2 x hx with hin | hout
            · simp only [markSt, List.mem_cons] at hin
              rcases hin with heq | hin
              · subst heq
                exact Or.inr (hids x (List.mem_cons_self _ _))
              · exact Or.inl hin
            · exact Or.inr hout

theorem buildDAG_levels_universe (tasks : List Task) :
    ∀ x ∈ (buildDAG tasks).levels.flatten, x ∈ idUniverse tasks := by
  intro x hx
  have hperm : (visitMany tasks [] (tasks.map Task.id) 0 ⟨[], [], false⟩).levels.flatten.Perm
      (visitMany tasks [] (tasks.map Task.id) 0 ⟨[], [], false⟩).visited :=
    visit_perm tasks [] (tasks.map Task.id) 0 ⟨[], [], false⟩ (by simp)
  have hx2 : x ∈ (visitMany tasks [] (tasks.map Task.id) 0 ⟨[], [], false⟩).visited := by
    apply hperm.mem_iff.mp
    have hrev : ((buildDAG tasks).levels.flatten).Perm
        (visitMany tasks [] (tasks.map Task.id) 0 ⟨[], [], false⟩).levels.flatten := by
      simp only [buildDAG]
      exact (List.reverse_perm _).flatten
    exact hrev.mem_iff.mp hx
  rcases visit_universe tasks [] (tasks.map Task.id) 0 ⟨[], [], false⟩
      (fun i hi => List.mem_append.mpr (Or.inl hi)) x hx2 with hin | hout
  · cases hin
  · exact hout

/-- Claim C1, amended: for every acyclic task list the cycle flag is false
and every task of the list is placed exactly once in the level buckets; the
claimed strict level ordering of dependencies does not hold in general. -/
theorem claim_C1 (tasks : List Task) (h : ¬ Cyclic tasks) :
    (buildDAG tasks).hasCycles = false ∧
      ∀ t ∈ tasks, ((buildDAG tasks).levels.flatten).count t.id = 1 := by
  have hflag : (buildDAG tasks).hasCycles = false := by
    cases hB : (buildDAG tasks).hasCycles
    · rfl
    · exact absurd (buildDAG_flag_imp_cyclic tasks hB) h
  exact ⟨hflag, buildDAG_levels_count tasks hflag⟩

/-- Claim C1, counterexample: the two-task acyclic list where the
dependency is listed first lands both tasks in the same level, refuting the
strict level ordering stated by the claim. -/
theorem claim_C1_counterexample :
    ¬ Cyclic pairTasks ∧ ¬ LevelOrderProp pairTasks (buildDAG pairTasks) := by
  constructor
  · apply rank_not_cyclic pairTasks (fun s => if s = "t1" then 0 else 1)
    intro a b hab
    obtain ⟨t, ht, hid, hb⟩ := depEdge_mem pairTasks a b hab
    have ht2 : t = ⟨"t1", "", [], "", ""⟩ ∨ t = ⟨"t2", "", ["t1"], "", ""⟩ := by
      simpa [pairTasks] using ht
    rcases ht2 with rfl | rfl
    · cases hb
    · have hb2 : b = "t1" := by simpa using hb
      subst hb2
      subst hid
      simp
  · intro h
    have hlv : (buildDAG pairTasks).levels = [["t1", "t2"]] := by
      simp +decide [buildDAG, visitMany, markSt, pushAt, findTask, pairTasks, List.find?]
    have h2 := h ⟨"t2", "", ["t1"], "", ""⟩ (by simp [pairTasks]) 0
      (by rw [hlv]; simp) "t1" (by simp)
      ⟨⟨"t1", "", [], "", ""⟩, by simp [pairTasks], rfl⟩
    obtain ⟨j, hj, _⟩ := h2
    exact Nat.not_lt_zero j hj

theorem claim_C1_witness : (buildDAG soloTasks).hasCycles = false :=
  (claim_C1 soloTasks (no_deps_not_cyclic soloTasks (by decide))).1

/-- Claim C2, amended: on the three-task chain given in list order t1, t2,
t3, buildDAG returns the single level containing all three identifiers with
the cycle flag false, and the rendered plan is one line carrying the
parallel marker. -/
theorem claim_C2 :
    (buildDAG chainTasks).levels = [["t1", "t2", "t3"]] ∧
      (buildDAG chainTasks).hasCycles = false ∧
      createExecutionPlan (buildDAG chainTasks) = ["Level 1: t1, t2, t3 (parallel)"] := by
  have hlv : (buildDAG chainTasks).levels = [["t1", "t2", "t3"]] := by
    simp +decide [buildDAG, visitMany, markSt, pushAt, findTask, chainTasks, List.find?]
  have hfl : (buildDAG chainTasks).hasCycles = false := by
    simp +decide [buildDAG, visitMany, markSt, pushAt, findTask, chainTasks, List.find?]
  refine ⟨hlv, hfl, ?_⟩
  rw [createExecutionPlan, hlv]
  simp +decide [planLine]

/-- Claim C2, counterexample: the levels returned for the chain are not the
three singleton levels stated by the claim. -/
theorem claim_C2_counterexample :
    (buildDAG chainTasks).levels ≠ [["t1"], ["t2"], ["t3"]] := by
  have hlv : (buildDAG chainTasks).levels = [["t1", "t2", "t3"]] := by
    simp +decide [buildDAG, visitMany, markSt, pushAt, findTask, chainTasks, List.find?]
  rw [hlv]
  decide

/-- Claim C3, amended: a dangling dependency identifier never affects the
cycle flag, which is true exactly when the declared edges of the present
tasks contain a cycle; however, contrary to the claim, every identifier
reached by the traversal, including dangling ones, is inserted into a level
bucket, as the concrete example shows. -/
theorem claim_C3 :
    (∀ tasks : List Task, ((buildDAG tasks).hasCycles = true ↔ Cyclic tasks)) ∧
      (∀ tasks : List Task, ∀ x ∈ (buildDAG tasks).levels.flatten, x ∈ idUniverse tasks) ∧
      "ghost" ∈ (buildDAG dangTasks).levels.flatten := by
  refine ⟨fun tasks => ⟨buildDAG_flag_imp_cyclic tasks, buildDAG_cyclic_flag tasks⟩,
    buildDAG_levels_universe, ?_⟩
  have hlv : (buildDAG dangTasks).levels = [["ghost"], ["a"]] := by
    simp +decide [buildDAG, visitMany, markSt, pushAt, findTask, dangTasks, List.find?]
  rw [hlv]
  decide

theorem claim_C3_witness : "ghost" ∈ (buildDAG dangTasks).levels.flatten :=
  claim_C3.2.2

/-- Claim C3, counterexample: the identifier ghost matches no task of the
list, yet it appears in a level bucket of the result. -/
theorem claim_C3_counterexample :
    "ghost" ∉ dangTasks.map Task.id ∧ "ghost" ∈ (buildDAG dangTasks).levels.flatten := by
  constructor
  · decide
  · have hlv : (buildDAG dangTasks).levels = [["ghost"], ["a"]] := by
      simp +decide [buildDAG, visitMany, markSt, pushAt, findTask, dangTasks, List.find?]
    rw [hlv]
    decide

/-- Claim C4: every task list containing a dependency cycle gets the cycle
flag set, and the execute step of the coordinator then aborts with the
cyclic dependency error before computing an execution plan; buildDAG itself
is total and reports the cycle only through the flag. -/
theorem claim_C4 (tasks : List Task) (h : Cyclic tasks) :
    (buildDAG tasks).hasCycles = true ∧
      executePlanStep tasks = Except.error "Circular dependency detected in task graph" := by
  have hflag := buildDAG_cyclic_flag tasks h
  refine ⟨hflag, ?_⟩
  rw [executePlanStep]
  simp [hflag]

theorem claim_C4_witness : (buildDAG cycTasks).hasCycles = true :=
  (claim_C4 cycTasks
    ⟨"a", @Relation.TransGen.head String (depEdge cycTasks) "a" "b" "a" (by decide)
      (Relation.TransGen.single (by decide))⟩).1

theorem mem_insertUnique (acc : List String) (x y : String) :
    y ∈ insertUnique acc x ↔ y ∈ acc ∨ y = x := by
  by_cases h : x ∈ acc
  · simp only [insertUnique, if_pos h]
    constructor
    · exact Or.inl
    · rintro (hy | rfl)
      · exact hy
      · exact h
  · simp [insertUnique, if_neg h]

theorem nodup_insertUnique (acc : List String) (x : String) (h : acc.Nodup) :
    (insertUnique acc x).Nodup := by
  by_cases hx : x ∈ acc
  · simpa [insertUnique, if_pos hx] using h
  · rw [insertUnique, if_neg hx]
    refine List.nodup_append.mpr ⟨h, List.nodup_singleton x, ?_⟩
    intro a ha hax
    rw [List.mem_singleton] at hax
    subst hax
    exact hx ha

theorem mem_foldl_insertUnique (l : List String) : ∀ acc y,
    y ∈ l.foldl insertUnique acc ↔ y ∈ acc ∨ y ∈ l := by
  induction l with
  | nil =>
    intro acc y
    simp
  | cons x xs ih =>
    intro acc y
    rw [List.foldl_cons, ih]
    rw [mem_insertUnique]
    constructor
    · rintro ((hy | rfl) | hy)
      · exact Or.inl hy
      · exact Or.inr (List.mem_cons_self _ _)
      · exact Or.inr (List.mem_cons_of_mem _ hy)
    · rintro (hy | hy)
      · exact Or.inl (Or.inl hy)
      · rcases List.mem_cons.mp hy with rfl | hy
        · exact Or.inl (Or.inr rfl)
        · exact Or.inr hy

theorem nodup_foldl_insertUnique (l : List String) : ∀ acc, acc.Nodup →
    (l.foldl insertUnique acc).Nodup := by
  induction l with
  | nil =>
    intro acc h
    exact h
  | cons x xs ih =>
    intro acc h
    rw [List.foldl_cons]
    exact ih _ (nodup_insertUnique acc x h)

theorem mem_dedupFirst (l : List String) (y : String) : y ∈ dedupFirst l ↔ y ∈ l := by
  rw [dedupFirst, mem_foldl_insertUnique]
  simp

theorem nodup_dedupFirst (l : List String) : (dedupFirst l).Nodup :=
  nodup_foldl_insertUnique l [] List.nodup_nil

theorem foldl_insertUnique_fixed (l : List String) : ∀ acc, (∀ x ∈ l, x ∈ acc) →
    l.foldl insertUnique acc = acc := by
  induction l with
  | nil =>
    intro acc _
    rfl
  | cons x xs ih =>
    intro acc h
    rw [List.foldl_cons, insertUnique, if_pos (h x (List.mem_cons_self _ _))]
    exact ih acc (fun z hz => h z (List.mem_cons_of_mem _ hz))

theorem foldl_insertUnique_of_nodup (l : List String) : ∀ acc, (acc ++ l).Nodup →
    l.foldl insertUnique acc = acc ++ l := by
  induction l with
  | nil =>
    intro acc _
    simp
  | cons x xs ih =>
    intro acc h
    have hx : x ∉ acc := by
      intro hmem
      rcases List.nodup_append.mp h with ⟨_, _, hdisj⟩
      exact hdisj hmem (List.mem_cons_self _ _)
    rw [List.foldl_cons, insertUnique, if_neg hx]
    have h2 : ((acc ++ [x]) ++ xs).Nodup := by
      simpa [List.append_assoc] using h
    rw [ih (acc ++ [x]) h2]
    simp

theorem dedupFirst_nodup_id (l : List String) (h : l.Nodup) : dedupFirst l = l := by
  rw [dedupFirst]
  have h2 := foldl_insertUnique_of_nodup l [] (by simpa using h)
  simpa using h2

theorem dedupFirst_append_stable (L N : List String) :
    dedupFirst (dedupFirst (L ++ N) ++ N) = dedupFirst (L ++ N) := by
  rw [dedupFirst, List.foldl_append]
  have h1 : (dedupFirst (L ++ N)).foldl insertUnique [] = dedupFirst (L ++ N) := by
    rw [← dedupFirst]
    exact dedupFirst_nodup_id _ (nodup_dedupFirst _)
  rw [h1]
  apply foldl_insertUnique_fixed
  intro x hx
  exact (mem_dedupFirst _ _).mpr (List.mem_append.mpr (Or.inr hx))

/-- Claim C5: a transition to a target outside the table of the source
leaves the machine unchanged and raises the invalid-transition message
built from the attempted pair; the message determines the pair. -/
theorem claim_C5 (st : FSMState) (toState : IssueState) (reason : Option String)
    (now : Nat) (h : toState ∉ validTransitions st.issue.state) :
    transitionRun toState reason now st =
      (st, some (invalidTransitionMsg st.issue.state toState)) ∧
    ∀ f1 t1 f2 t2 : IssueState,
      invalidTransitionMsg f1 t1 = invalidTransitionMsg f2 t2 → f1 = f2 ∧ t1 = t2 := by
  constructor
  · have hc : (validTransitions st.issue.state).contains toState = false := by
      cases hcc : (validTransitions st.issue.state).contains toState
      · rfl
      · exact absurd (by simpa using hcc) h
    rw [transitionRun]
    simp [hc]
    exact h
  · decide

theorem claim_C5_witness :
    transitionRun IssueState.done none 0 (mkFSM scenarioIssue) =
      (mkFSM scenarioIssue, some (invalidTransitionMsg IssueState.new IssueState.done)) :=
  (claim_C5 (mkFSM scenarioIssue) IssueState.done none 0 (by decide)).1

/-- Claim C6: a transition inside the table succeeds with no error, sets the
target state, appends exactly the one new history record, replaces the
labels by the state-filtered labels followed by the single new state label,
and afterwards the only state-prefixed label is the new one. -/
theorem claim_C6 (st : FSMState) (toState : IssueState) (reason : Option String)
    (now : Nat) (h : toState ∈ validTransitions st.issue.state) :
    (transitionRun toState reason now st).2 = none ∧
    (transitionRun toState reason now st).1.issue.state = toState ∧
    (transitionRun toState reason now st).1.history =
      st.history ++ [⟨st.issue.state, toState, now, reason⟩] ∧
    (transitionRun toState reason now st).1.issue.labels =
      (st.issue.labels.filter (fun l => !(l.startsWith "state:"))) ++ [stateLabel toState] ∧
    ∀ l ∈ (transitionRun toState reason now st).1.issue.labels,
      l.startsWith "state:" = true → l = stateLabel toState := by
  have hc : (validTransitions st.issue.state).contains toState = true := by
    simpa using h
  refine ⟨?_, ?_, ?_, ?_, ?_⟩
  · rw [transitionRun, if_pos hc]
  · rw [transitionRun, if_pos hc]
  · rw [transitionRun, if_pos hc]
  · rw [transitionRun, if_pos hc]
  · intro l hl hsw
    rw [transitionRun, if_pos hc] at hl
    simp only [List.mem_append, List.mem_singleton] at hl
    rcases hl with hl | hl
    · rcases List.mem_filter.mp hl with ⟨_, hnot⟩
      rw [hsw] at hnot
      cases hnot
    · exact hl

theorem claim_C6_witness :
    (transitionRun IssueState.pending none 0 (mkFSM scenarioIssue)).2 = none :=
  (claim_C6 (mkFSM scenarioIssue) IssueState.pending none 0 (by decide)).1

/-- Claim C7: initialize on a record in state new ends in state pending,
assigns exactly the one computed priority, and the labels contain the
pending state label and the priority label; on the scenario record the
priority is critical and the labels include the stated three. -/
theorem claim_C7 :
    (∀ (issue : IssueData) (now : Nat), issue.state = IssueState.new →
      (initializeRun now (mkFSM issue)).issue.state = IssueState.pending ∧
      (initializeRun now (mkFSM issue)).issue.priority =
        some (autoPriorityVal (textOf issue.title issue.body)) ∧
      stateLabel IssueState.pending ∈ (initializeRun now (mkFSM issue)).issue.labels ∧
      priorityLabel (autoPriorityVal (textOf issue.title issue.body)) ∈
        (initializeRun now (mkFSM issue)).issue.labels) ∧
    ((initializeRun 0 (mkFSM scenarioIssue)).issue.state = IssueState.pending ∧
     (initializeRun 0 (mkFSM scenarioIssue)).issue.priority = some IssuePriority.critical ∧
     "priority:critical" ∈ (initializeRun 0 (mkFSM scenarioIssue)).issue.labels ∧
     "bug" ∈ (initializeRun 0 (mkFSM scenarioIssue)).issue.labels ∧
     "state:pending" ∈ (initializeRun 0 (mkFSM scenarioIssue)).issue.labels) := by
  constructor
  · intro issue now h
    rw [initializeRun, if_pos (by exact h)]
    refine ⟨rfl, rfl, ?_, ?_⟩
    · apply (mem_dedupFirst _ _).mpr
      apply List.mem_append.mpr (Or.inr _)
      simp [newLabelsFor, autoAssignPriorityRun, transitionToPendingRun, mkFSM, stateLabel]
    · apply (mem_dedupFirst _ _).mpr
      apply List.mem_append.mpr (Or.inr _)
      simp [newLabelsFor, autoAssignPriorityRun, transitionToPendingRun, mkFSM]
  · refine ⟨by decide, by decide, by decide, by decide, by decide⟩

theorem claim_C7_witness :
    (initializeRun 0 (mkFSM scenarioIssue)).issue.state = IssueState.pending :=
  (claim_C7.1 scenarioIssue 0 rfl).1

/-- Claim C8: the priority loops of the source compute exactly the
tier-by-tier first-match value the specification describes, with medium as
the untested default; any text with a critical keyword gets critical. -/
theorem claim_C8 (title body : String) :
    autoPriorityVal (textOf title body) = autoPrioritySpecForm (textOf title body) ∧
    (anyKeyword (textOf title body) criticalKeywords = true →
      autoPriorityVal (textOf title body) = IssuePriority.critical) := by
  constructor
  · cases hc : anyKeyword (textOf title body) criticalKeywords <;>
      cases hh : anyKeyword (textOf title body) highKeywords <;>
      cases hl : anyKeyword (textOf title body) lowKeywords <;>
      simp [autoPriorityVal, autoPrioritySpecForm, hc, hh, hl]
  · intro h
    simp [autoPriorityVal, h]

theorem claim_C8_witness :
    anyKeyword (textOf "critical minor issue" "") criticalKeywords = true ∧
    anyKeyword (textOf "critical minor issue" "") lowKeywords = true ∧
    autoPriorityVal (textOf "critical minor issue" "") = IssuePriority.critical :=
  ⟨by decide, by decide, (claim_C8 "critical minor issue" "").2 (by decide)⟩

/-- Claim C9: the automatic label step is idempotent and never produces a
duplicate label entry. -/
theorem claim_C9 (st : FSMState) :
    (addAutoLabelsRun (addAutoLabelsRun st)).issue.labels =
      (addAutoLabelsRun st).issue.labels ∧
    (addAutoLabelsRun st).issue.labels.Nodup := by
  constructor
  · have h1 : (addAutoLabelsRun (addAutoLabelsRun st)).issue.labels =
        dedupFirst ((dedupFirst (st.issue.labels ++ newLabelsFor st.issue))
          ++ newLabelsFor st.issue) := rfl
    have h2 : (addAutoLabelsRun st).issue.labels =
        dedupFirst (st.issue.labels ++ newLabelsFor st.issue) := rfl
    rw [h1, h2]
    exact dedupFirst_append_stable _ _
  · exact nodup_dedupFirst _

theorem runAgents_snd (agents : List Agent) : ∀ i : IssueData,
    (runAgents agents i).2 = chainAgents agents i := by
  induction agents with
  | nil =>
    intro i
    rfl
  | cons a rest ih =>
    intro i
    rw [runAgents, chainAgents]
    cases hp : a.process i with
    | ok i2 => simp [ih i2]
    | error e => simp

theorem runAgents_append_ok (pre : List Agent) : ∀ (i j : IssueData),
    chainAgents pre i = Except.ok j → ∀ rest : List Agent,
      runAgents (pre ++ rest) i =
        ((runAgents pre i).1 ++ (runAgents rest j).1, (runAgents rest j).2) := by
  induction pre with
  | nil =>
    intro i j h rest
    have hij : i = j := by
      simpa [chainAgents] using h
    subst hij
    simp [runAgents]
  | cons a pre2 ih =>
    intro i j h rest
    rw [chainAgents] at h
    cases hp : a.process i with
    | error e =>
      rw [hp] at h
      cases h
    | ok i2 =>
      rw [hp] at h
      show runAgents (a :: (pre2 ++ rest)) i = _
      rw [runAgents, runAgents]
      simp only [hp]
      rw [ih i2 j h rest]
      simp

/-- Claim C10: the pipeline outcome is exactly the in-order chaining of the
registered agents applied after initialization, and when the first failing
agent is reached the emitted trace is the initialization events, the events
of the successful prefix, the start event of the failing agent, and the
pipeline error carrying the original message; no later agent contributes
and no partial result is returned. -/
theorem claim_C10 (agents : List Agent) (now : Nat) (issue : IssueData) :
    ((processIssue agents now issue).2 =
      chainAgents agents (initializeRun now (mkFSM issue)).issue) ∧
    (∀ (pre : List Agent) (a : Agent) (post : List Agent) (j : IssueData) (e : String),
      agents = pre ++ a :: post →
      chainAgents pre (initializeRun now (mkFSM issue)).issue = Except.ok j →
      a.process j = Except.error e →
      processIssue agents now issue =
        (initializeEvents now (mkFSM issue) ++
           (runAgents pre (initializeRun now (mkFSM issue)).issue).1 ++
           [PEvent.agentStart a.name j.id, PEvent.pipelineError e],
         Except.error e)) := by
  constructor
  · rw [processIssue]
    split
    · rename_i i2 heq
      rw [← runAgents_snd, heq]
    · rename_i e heq
      rw [← runAgents_snd, heq]
  · intro pre a post j e hsplit hpre hfail
    subst hsplit
    have hpost : runAgents (a :: post) j = ([PEvent.agentStart a.name j.id], Except.error e) := by
      rw [runAgents]
      simp [hfail]
    have hr := runAgents_append_ok pre _ j hpre (a :: post)
    rw [hpost] at hr
    rw [processIssue]
    split
    · rename_i i2 heq
      rw [hr] at heq
      cases heq
    · rename_i e2 heq
      rw [hr] at heq
      cases heq
      rw [hr]
      simp

theorem claim_C10_witness :
    processIssue [⟨"f", fun _ => Except.error "boom"⟩, ⟨"g", fun i => Except.ok i⟩]
        0 scenarioIssue =
      (initializeEvents 0 (mkFSM scenarioIssue) ++
         (runAgents [] (initializeRun 0 (mkFSM scenarioIssue)).issue).1 ++
         [PEvent.agentStart "f" (initializeRun 0 (mkFSM scenarioIssue)).issue.id,
          PEvent.pipelineError "boom"],
       Except.error "boom") :=
  (claim_C10 [⟨"f", fun _ => Except.error "boom"⟩, ⟨"g", fun i => Except.ok i⟩]
      0 scenarioIssue).2
    [] ⟨"f", fun _ => Except.error "boom"⟩ [⟨"g", fun i => Except.ok i⟩]
    (initializeRun 0 (mkFSM scenarioIssue)).issue "boom" rfl rfl rfl

end Core
